import Mathlib

namespace Frame

/-!
Shallow embedding of `src/algo/frame.py` (single-frame LiDAR segmentation).

Modelling conventions:
* numpy float arrays over the points become `List ℚ` (the stages after
  gridding are pure rational arithmetic once the plane-fit results are given);
  the gridding stage itself needs `arcsin`/`sqrt` and is embedded over `ℝ`.
* a numpy boolean mask over the `n` points becomes a predicate `ℕ → Bool`;
  masked assignment `a[mask] = v` becomes `maskUpd mask (fun _ _ => v) a`.
* `util.plane_fit` is an external collaborator (module `util` is not part of
  `src/`); the pipeline is parameterised over it, and a spec-modelled
  least-squares implementation `plane_fit` is provided below.
* reductions that numpy refuses on an empty array (`min`/`max` with no
  identity raise `ValueError`) are modelled by returning `none` from the
  stage that performs them.
-/

/-- Flag bit for noise points (`_IS_NOISE` in the source). -/
def IS_NOISE : ℕ := 1

/-- Flag bit for ground points (`_IS_GROUND` in the source). -/
def IS_GROUND : ℕ := 2

/-- The configuration record `cfg` consumed by `Frame`. -/
structure Config where
  lidar_height : ℚ
  max_theta : ℚ
  theta_grid_size : ℚ
  min_dist : ℚ
  dist_grid_size : ℚ
  dz_local : ℚ
  dz_global : ℚ
  max_slope : ℚ
  min_grd_pts : ℕ
  min_samples : ℕ
  n_dist_grids : ℕ
  n_angular_grids : ℕ
  base_h_cut : ℚ
  h_max_cut : ℚ
  h_grid_size : ℚ

/-- A 3D point `(x, y, z)`. -/
abbrev Pt : Type := ℚ × ℚ × ℚ

/-- Read a rational array at index `i` (0 outside the array). -/
def getQ (l : List ℚ) (i : ℕ) : ℚ := l.getD i 0

/-- Read an integer array at index `i` (0 outside the array). -/
def getZ (l : List ℤ) (i : ℕ) : ℤ := l.getD i 0

/-- Read a natural-number array (flags / cluster ids) at index `i`. -/
def getF (l : List ℕ) (i : ℕ) : ℕ := l.getD i 0

/-- Read a point array at index `i`. -/
def getP (l : List Pt) (i : ℕ) : Pt := l.getD i (0, 0, 0)

/-- Auxiliary recursion for `maskUpd`: `k` is the index of the head. -/
def maskUpdAux (mask : ℕ → Bool) (f : ℕ → α → α) : ℕ → List α → List α
  | _, [] => []
  | k, a :: t => (if mask k then f k a else a) :: maskUpdAux mask f (k + 1) t

/-- numpy masked assignment: update the entries selected by `mask`. -/
def maskUpd (mask : ℕ → Bool) (f : ℕ → α → α) (l : List α) : List α :=
  maskUpdAux mask f 0 l

/-- Size of a numpy boolean mask: `mask.sum()` over `n` points. -/
def countMask (n : ℕ) (mask : ℕ → Bool) : ℕ :=
  ((List.range n).filter mask).length

/-- numpy `clip(v, lo, hi)`. -/
def clip (v lo hi : ℚ) : ℚ := min (max v lo) hi

/-! ### Ground Estimator, Phase A (`ground_detection`, lines 46-60) -/

/-- The ground-candidate test of line 49:
`|z + lidar_height| < (distXY * max_slope).clip(dz_local, dz_global)`. -/
def grdCandidate (cfg : Config) (p : Pt) (d : ℚ) : Bool :=
  decide (|p.2.2 + cfg.lidar_height| < clip (d * cfg.max_slope) cfg.dz_local cfg.dz_global)

/-- `np.where(grd_candidates)[0]`: candidate indices in ascending order. -/
def candIdx (cfg : Config) (pos : List Pt) (dist : List ℚ) : List ℕ :=
  (List.range pos.length).filter (fun i => grdCandidate cfg (getP pos i) (getQ dist i))

/-- `self.pos[grd_candidates]`: the candidate points handed to the plane fit. -/
def candPts (cfg : Config) (pos : List Pt) (dist : List ℚ) : List Pt :=
  (candIdx cfg pos dist).map (getP pos)

/-- The global plane parameters `(a, b, c)` returned by the external fitter. -/
def phaseApar (pf : List Pt → ℚ × ℚ × ℚ) (cfg : Config) (pos : List Pt)
    (dist : List ℚ) : ℚ × ℚ × ℚ :=
  pf (candPts cfg pos dist)

/-- Line 56: `h_arr = z - a*x - b*y - c` for every point. -/
def heights (pos : List Pt) (par : ℚ × ℚ × ℚ) : List ℚ :=
  pos.map (fun p => p.2.2 - par.1 * p.1 - par.2.1 * p.2.1 - par.2.2)

/-- Phase A of `ground_detection` (lines 47-60): zero the flags, pick
candidates, fit the global plane, compute heights for all points, and set
the ground bit on candidates whose height is below `dz_local`. -/
def phaseA (pf : List Pt → ℚ × ℚ × ℚ) (cfg : Config) (pos : List Pt)
    (dist : List ℚ) : List ℚ × List ℕ :=
  let par := phaseApar pf cfg pos dist
  let h := heights pos par
  let flags := maskUpd
    (fun i => grdCandidate cfg (getP pos i) (getQ dist i) &&
      decide (getQ h i < cfg.dz_local))
    (fun _ f => f ||| IS_GROUND)
    (List.replicate pos.length 0)
  (h, flags)

/-! ### Ground Estimator, Phase B (`ground_detection`, lines 62-91) -/

/-- Line 72: indices in the 3x3 neighbourhood of cell `(ix, iy)` whose ground
bit is currently set (`nearby ∧ flags & IS_GROUND > 0`), ascending. -/
def toFitIdx (xi yi : List ℤ) (flags : List ℕ) (ix iy : ℤ) : List ℕ :=
  (List.range xi.length).filter (fun i =>
    decide (|getZ xi i - ix| < 2) && decide (|getZ yi i - iy| < 2) &&
      decide (0 < getF flags i &&& IS_GROUND))

/-- The body of the inner `ix` loop (lines 69-91): gather the flagged
neighbourhood, skip if it is too small, otherwise fit a local plane, clip its
slopes, and rewrite height and flags of the points strictly inside the cell. -/
def phaseBCell (pf : List Pt → ℚ × ℚ × ℚ) (cfg : Config) (pos : List Pt)
    (xi yi : List ℤ) (iy ix : ℤ) (s : List ℚ × List ℕ) : List ℚ × List ℕ :=
  let toFit := toFitIdx xi yi s.2 ix iy
  if toFit.length < cfg.min_grd_pts then s
  else
    let par := pf (toFit.map (getP pos))
    let a := clip par.1 (-cfg.max_slope) cfg.max_slope
    let b := clip par.2.1 (-cfg.max_slope) cfg.max_slope
    let c := par.2.2
    let isLocal := fun i => getZ xi i == ix && getZ yi i == iy
    let h' := maskUpd isLocal
      (fun i _ => (getP pos i).2.2 - ((getP pos i).1 * a + (getP pos i).2.1 * b) - c) s.1
    let onPlane := fun i =>
      decide (-cfg.dz_global < getQ h' i) && decide (getQ h' i < cfg.dz_local)
    let flags' := maskUpd isLocal
      (fun i f => if onPlane i then f ||| IS_GROUND else 0) s.2
    (h', flags')

/-- The body of the outer `iy` loop (lines 63-91): skip the whole row when it
holds fewer than `min_grd_pts` points, otherwise run every angular cell. -/
def phaseBRow (pf : List Pt → ℚ × ℚ × ℚ) (cfg : Config) (pos : List Pt)
    (xi yi : List ℤ) (iy : ℤ) (s : List ℚ × List ℕ) : List ℚ × List ℕ :=
  if countMask yi.length (fun i => getZ yi i == iy) < cfg.min_grd_pts then s
  else (List.range cfg.n_angular_grids).foldl
    (fun s ix => phaseBCell pf cfg pos xi yi iy (ix : ℤ) s) s

/-- Phase B: the double grid loop of lines 63-91. -/
def phaseB (pf : List Pt → ℚ × ℚ × ℚ) (cfg : Config) (pos : List Pt)
    (xi yi : List ℤ) (s : List ℚ × List ℕ) : List ℚ × List ℕ :=
  (List.range cfg.n_dist_grids).foldl
    (fun s iy => phaseBRow pf cfg pos xi yi (iy : ℤ) s) s

/-- `Frame.ground_detection`: Phase A followed by Phase B. -/
def ground_detection (pf : List Pt → ℚ × ℚ × ℚ) (cfg : Config) (pos : List Pt)
    (dist : List ℚ) (xi yi : List ℤ) : List ℚ × List ℕ :=
  phaseB pf cfg pos xi yi (phaseA pf cfg pos dist)

/-- Number of points whose ground bit is set. -/
def groundCount (flags : List ℕ) : ℕ :=
  countMask flags.length (fun i => decide (0 < getF flags i &&& IS_GROUND))

/-! ### Cluster Builder (`clustering`, lines 94-119) -/

/-- State of the clustering sweep: the per-point ids, the `next_cid` counter,
and a ghost trace of the ids issued by new-id allocations, in order. -/
structure CState where
  cid : List ℕ
  next : ℕ
  issued : List ℕ

/-- Line 100: the height band `dz_local ≤ h < base_h_cut` of the builder. -/
def hcutMask (cfg : Config) (h : List ℚ) (i : ℕ) : Bool :=
  decide (getQ h i < cfg.base_h_cut) && decide (cfg.dz_local ≤ getQ h i)

/-- Line 102: `in_x`, the band-filtered points of columns `ix-1, ix`. -/
def inXMask (cfg : Config) (h : List ℚ) (xi : List ℤ) (ix : ℤ) (i : ℕ) : Bool :=
  decide (ix - 1 ≤ getZ xi i) && decide (getZ xi i ≤ ix) && hcutMask cfg h i

/-- Line 107: `in_y`, the band-filtered points of rows `iy-1, iy`. -/
def inYMask (cfg : Config) (h : List ℚ) (yi : List ℤ) (iy : ℤ) (i : ℕ) : Bool :=
  decide (iy - 1 ≤ getZ yi i) && decide (getZ yi i ≤ iy) && hcutMask cfg h i

/-- Line 108: the 2x2 block `in_grid = in_x & in_y`. -/
def blockMask (cfg : Config) (h : List ℚ) (xi yi : List ℤ) (ix iy : ℤ) (i : ℕ) : Bool :=
  inXMask cfg h xi ix i && inYMask cfg h yi iy i

/-- `self.cid_arr[mask].max()` (the caller guarantees the mask is nonempty;
ids are naturals, so folding `max` from 0 computes their maximum). -/
def maxMask (arr : List ℕ) (n : ℕ) (mask : ℕ → Bool) : ℕ :=
  ((List.range n).filter mask).foldl (fun m i => max m (getF arr i)) 0

/-- Python `range(a, b)` over integers. -/
def intRange (a b : ℤ) : List ℤ :=
  (List.range (b - a).toNat).map (fun k => a + (k : ℤ))

/-- The body of the inner `iy` loop (lines 107-119). -/
def blockStep (cfg : Config) (h : List ℚ) (xi yi : List ℤ) (ix iy : ℤ)
    (s : CState) : CState :=
  let g := blockMask cfg h xi yi ix iy
  let ns := countMask xi.length g
  if ns < 1 then s
  else
    let m := maxMask s.cid xi.length g
    if 0 < m then { s with cid := maskUpd g (fun _ _ => m) s.cid }
    else if cfg.min_samples ≤ ns then
      { cid := maskUpd g (fun _ _ => s.next) s.cid
        next := s.next + 1
        issued := s.issued ++ [s.next] }
    else s

/-- The body of the outer `ix` loop (lines 101-119): skip the column pair when
it holds no band point, otherwise sweep the rows. -/
def colStep (cfg : Config) (h : List ℚ) (xi yi : List ℤ) (iyRange : List ℤ)
    (s : CState) (ix : ℤ) : CState :=
  if countMask xi.length (inXMask cfg h xi ix) < 1 then s
  else iyRange.foldl (fun s iy => blockStep cfg h xi yi ix iy s) s

/-- `Frame.clustering`. `x_idx.min()` on an empty array raises `ValueError`
in numpy, which is modelled by `none`. -/
def clustering (cfg : Config) (h : List ℚ) (xi yi : List ℤ) : Option CState :=
  if xi.isEmpty then none
  else
    let xmin := xi.foldl min (xi.headD 0)
    let xmax := xi.foldl max (xi.headD 0)
    let ymin := yi.foldl min (yi.headD 0)
    let ymax := yi.foldl max (yi.headD 0)
    some ((intRange (xmin + 1) xmax).foldl
      (colStep cfg h xi yi (intRange (ymin + 1) ymax))
      ⟨List.replicate xi.length 0, 1, []⟩)

/-! ### Cluster Grower (`grow_cluster`, lines 121-151) -/

/-- Line 125: `connect_layer`, points with `h > base_h_cut - dz_global`. -/
def connectMask (cfg : Config) (h : List ℚ) (i : ℕ) : Bool :=
  decide (cfg.base_h_cut - cfg.dz_global < getQ h i)

/-- Line 141: Chebyshev-distance-below-2 test against one footprint cell. -/
def chebNear (xi yi : List ℤ) (g : ℤ × ℤ) (i : ℕ) : Bool :=
  decide (|getZ xi i - g.1| < 2) && decide (|getZ yi i - g.2| < 2)

/-- Line 137: the half-open height layer `[h0, h0 + h_grid_size)`. -/
def inLayerMask (cfg : Config) (h : List ℚ) (h0 : ℚ) (i : ℕ) : Bool :=
  decide (h0 ≤ getQ h i) && decide (getQ h i < h0 + cfg.h_grid_size)

/-- `sel_arr` after the `for ix, iy in grids` loop (lines 138-145): layer
points within Chebyshev distance 1 of some footprint cell. -/
def layerSel (cfg : Config) (xi yi : List ℤ) (h : List ℚ)
    (grids : List (ℤ × ℤ)) (h0 : ℚ) (i : ℕ) : Bool :=
  grids.any (fun g => chebNear xi yi g i) && inLayerMask cfg h h0 i

/-- `np.unique(grid_indices[sel], axis=0)`: the distinct cells of a point
selection. (numpy sorts the result; every use is order-insensitive, so the
first-occurrence `dedup` is an equivalent model.) -/
def gridsOf (xi yi : List ℤ) (n : ℕ) (sel : ℕ → Bool) : List (ℤ × ℤ) :=
  (((List.range n).filter sel).map (fun i => (getZ xi i, getZ yi i))).dedup

/-- The layer loop of lines 136-151 for one cluster id: assign the id to the
selected points of each layer, break at the first empty selection, otherwise
recompute the footprint from exactly the selected points. -/
def growLayers (cfg : Config) (xi yi : List ℤ) (h : List ℚ) (cid : ℕ) :
    List ℚ → List (ℤ × ℤ) → List ℕ → List ℕ
  | [], _, cids => cids
  | h0 :: rest, grids, cids =>
    let sel := layerSel cfg xi yi h grids h0
    let cids' := maskUpd sel (fun _ _ => cid) cids
    if countMask xi.length sel < 1 then cids'
    else growLayers cfg xi yi h cid rest (gridsOf xi yi xi.length sel) cids'

/-- `np.arange(base_h_cut, h_max_cut, h_grid_size)` has
`max 0 ⌈(h_max_cut - base_h_cut) / h_grid_size⌉` entries (step nonzero). -/
def layerCount (cfg : Config) : ℕ :=
  (⌈(cfg.h_max_cut - cfg.base_h_cut) / cfg.h_grid_size⌉).toNat

/-- The layer grid `base_h_cut, base_h_cut + h_grid_size, ...` of line 136. -/
def layerList (cfg : Config) : List ℚ :=
  (List.range (layerCount cfg)).map (fun k : ℕ => cfg.base_h_cut + (k : ℚ) * cfg.h_grid_size)

/-- The body of the `for cid` loop (lines 129-151): seed from the points
currently carrying `cid` inside the connect layer, skip the id when there is
no seed, otherwise run the layer loop from the seeds' footprint. -/
def growOne (cfg : Config) (xi yi : List ℤ) (h : List ℚ) (cids : List ℕ)
    (cid : ℕ) : List ℕ :=
  let seeds := fun i => connectMask cfg h i && (getF cids i == cid)
  if countMask xi.length seeds < 1 then cids
  else growLayers cfg xi yi h cid (layerList cfg) (gridsOf xi yi xi.length seeds) cids

/-- `Frame.grow_cluster`. `cid_arr.max()` on an empty array raises
`ValueError`, and `np.arange` raises on a zero step; the latter is reached
exactly when some id of `range(1, max+1)` has a seed (ids before the first
seeded one change nothing, so seeds are tested against the input ids).
Both errors are modelled by `none`. -/
def grow_cluster (cfg : Config) (xi yi : List ℤ) (h : List ℚ)
    (cids : List ℕ) : Option (List ℕ) :=
  if cids.isEmpty then none
  else if cfg.h_grid_size = 0 ∧
      ((List.range (cids.foldl max 0)).map (fun k => k + 1)).any
        (fun cid => 1 ≤ countMask xi.length
          (fun i => connectMask cfg h i && (getF cids i == cid))) = true then none
  else some (((List.range (cids.foldl max 0)).map (fun k => k + 1)).foldl
    (growOne cfg xi yi h) cids)

/-! ### The external plane fitter -/

/-- Modelled from the spec: the external PlaneFitter `util.plane_fit`
(module `util` is imported by `src/algo/frame.py` but is not under `src/`).
Per the spec it returns `(a, b, c)` minimizing the sum of squared residuals
of `z - a*x - b*y - c`; that minimizer is the solution of the normal
equations, solved here by Cramer's rule. The spec leaves inputs with fewer
than 3 points or collinear geometry implementation-defined; this model
returns `(0, 0, 0)` when the normal system is singular. -/
def plane_fit (pts : List Pt) : ℚ × ℚ × ℚ :=
  let n : ℚ := (pts.length : ℚ)
  let sx := (pts.map (fun p => p.1)).sum
  let sy := (pts.map (fun p => p.2.1)).sum
  let sz := (pts.map (fun p => p.2.2)).sum
  let sxx := (pts.map (fun p => p.1 * p.1)).sum
  let sxy := (pts.map (fun p => p.1 * p.2.1)).sum
  let syy := (pts.map (fun p => p.2.1 * p.2.1)).sum
  let sxz := (pts.map (fun p => p.1 * p.2.2)).sum
  let syz := (pts.map (fun p => p.2.1 * p.2.2)).sum
  let det := sxx * (syy * n - sy * sy) - sxy * (sxy * n - sy * sx)
    + sx * (sxy * sy - syy * sx)
  if det = 0 then (0, 0, 0)
  else
    let da := sxz * (syy * n - sy * sy) - sxy * (syz * n - sy * sz)
      + sx * (syz * sy - syy * sz)
    let db := sxx * (syz * n - sz * sy) - sxz * (sxy * n - sy * sx)
      + sx * (sxy * sz - syz * sx)
    let dc := sxx * (syy * sz - sy * syz) - sxy * (sxy * sz - sx * syz)
      + sxz * (sxy * sy - syy * sx)
    (da / det, db / det, dc / det)

/-! ### Grid Indexer (`gridding`, lines 40-44)
The gridding stage computes `arcsin(x / sqrt(x^2 + y^2))` and therefore lives
over `ℝ`. `.astype(np.int16)` is the C cast of a float to `int16`: the value
is truncated toward zero (`truncInt`) and the result wrapped modulo `2^16`
into the `int16` range `[-2^15, 2^15)` (`int16Wrap`); `astype16` composes the
two. numpy produces NaN for `arcsin(0/0)`; over `ℝ` the division-by-zero
convention `x / 0 = 0` applies instead, which only matters for the
degenerate-geometry analysis of C7. -/

/-- A raw 3D point of the gridding stage. -/
abbrev RPt : Type := ℝ × ℝ × ℝ

/-- `self.distXY`: the horizontal range `sqrt(x^2 + y^2)` (line 34). -/
noncomputable def distXY (p : RPt) : ℝ := Real.sqrt (p.1 ^ 2 + p.2.1 ^ 2)

/-- `self.theta = arcsin(x / distXY)` (line 42). -/
noncomputable def thetaOf (p : RPt) : ℝ := Real.arcsin (p.1 / distXY p)

/-- Truncation toward zero, the first half of the C float-to-`int16` cast. -/
noncomputable def truncInt (r : ℝ) : ℤ := if 0 ≤ r then ⌊r⌋ else ⌈r⌉

/-- Wrap an integer modulo `2^16` into the `int16` range `[-2^15, 2^15)`,
the second half of the cast. -/
def int16Wrap (z : ℤ) : ℤ := (z + 2 ^ 15) % 2 ^ 16 - 2 ^ 15

/-- `.astype(np.int16)` of a float value: truncate toward zero, then wrap. -/
noncomputable def astype16 (r : ℝ) : ℤ := int16Wrap (truncInt r)

/-- The angular bin of line 43. -/
noncomputable def x_idx (cfg : Config) (p : RPt) : ℤ :=
  astype16 ((thetaOf p + (cfg.max_theta : ℝ)) / (cfg.theta_grid_size : ℝ))

/-- The range bin of line 44. -/
noncomputable def y_idx (cfg : Config) (p : RPt) : ℤ :=
  astype16 ((distXY p - (cfg.min_dist : ℝ)) / (cfg.dist_grid_size : ℝ))

/-- `Frame.gridding`: the per-point grid-cell indices. -/
noncomputable def gridding (cfg : Config) (pos : List RPt) : List (ℤ × ℤ) :=
  pos.map (fun p => (x_idx cfg p, y_idx cfg p))

/-! ### Claim theorems -/

/-- A concrete frame shared by several witnesses: six points, two dense
blocks in the clustering band, one point in the first growth layer between
them. -/
def cfgX : Config := ⟨0, 1, 1, 1, 1, 1, 1, 1, 1, 1, 6, 6, 2, 5, 1⟩

/-- Heights of the concrete frame `cfgX` scene. -/
def hX : List ℚ := [-5, 3/2, 5/2, 3/2, -5, -5]

/-- Angular bins of the concrete frame. -/
def xiX : List ℤ := [0, 2, 3, 4, 0, 5]

/-- Range bins of the concrete frame. -/
def yiX : List ℤ := [0, 1, 1, 1, 3, 0]

/-- A concrete gridding configuration with unit bins and `min_dist = 1`. -/
def gcfg : Config := ⟨0, 1, 1, 1, 1, 1, 1, 1, 1, 1, 6, 6, 2, 5, 1⟩

/-- A configuration with `dz_global = 1` and `min_grd_pts` so large that
Phase B never fires (`lidar_height = 0`, `dz_local = 1`, `max_slope = 1`). -/
def cfg9a : Config := ⟨0, 1, 1, 1, 1, 1, 1, 1, 100, 1, 6, 3, 2, 5, 1⟩

/-- `cfg9a` with only `dz_global` raised from 1 to 10. -/
def cfg9b : Config := { cfg9a with dz_global := 10 }

/-- `cfg9a` with only `dz_global` raised from 1 to 2 (this change leaves the
candidate set of `pos9` unchanged). -/
def cfg9c : Config := { cfg9a with dz_global := 2 }

/-- Six points: five on the plane `z = 0` and one far outlier `(0, 5, -4.9)`
that is a candidate only under the larger `dz_global`. -/
def pos9 : List Pt :=
  [(0, 1, 0), (0, 2, 0), (3/5, 4/5, 0), (0, 4, 0), (0, 4, 0), (0, 5, -49/10)]

/-- The horizontal ranges of `pos9`. -/
def dist9 : List ℚ := [1, 2, 1, 4, 4, 5]

/-- Angular bins of `pos9` (all in the forward cell). -/
def xi9 : List ℤ := [1, 1, 1, 1, 1, 1]

/-- Range bins of `pos9`. -/
def yi9 : List ℤ := [1, 2, 1, 4, 4, 5]

/-- Sum of squared residuals of the plane `z = a x + b y + c` over `pts`:
the objective the spec's PlaneFitter minimizes. -/
def resSq (pts : List Pt) (par : ℚ × ℚ × ℚ) : ℚ :=
  ((heights pts par).map (fun r => r * r)).sum

/-! ### Lemmas and claim theorems -/

theorem maskUpdAux_length (mask : ℕ → Bool) (f : ℕ → α → α) :
    ∀ (k : ℕ) (l : List α), (maskUpdAux mask f k l).length = l.length := by
  intro k l
  induction l generalizing k with
  | nil => rfl
  | cons a t ih => simp [maskUpdAux, ih]

theorem maskUpd_length (mask : ℕ → Bool) (f : ℕ → α → α) (l : List α) :
    (maskUpd mask f l).length = l.length :=
  maskUpdAux_length mask f 0 l

theorem getD_maskUpdAux (mask : ℕ → Bool) (f : ℕ → α → α) (d : α) :
    ∀ (k i : ℕ) (l : List α),
      (maskUpdAux mask f k l).getD i d =
        if i < l.length ∧ mask (k + i) = true then f (k + i) (l.getD i d)
        else l.getD i d := by
  intro k i l
  induction l generalizing k i with
  | nil => simp [maskUpdAux]
  | cons a t ih =>
    cases i with
    | zero =>
      by_cases h : mask k = true <;>
        simp [maskUpdAux, h, List.getD]
    | succ j =>
      simp only [maskUpdAux, List.getD_cons_succ, List.length_cons]
      rw [ih (k + 1) j]
      have harith : k + 1 + j = k + (j + 1) := by omega
      rw [harith]
      by_cases h1 : j < t.length
      · have h2 : j + 1 < t.length + 1 := by omega
        simp only [h1, h2, true_and]
      · have h2 : ¬ (j + 1 < t.length + 1) := by omega
        simp only [h1, h2, false_and, if_false]

theorem getD_maskUpd (mask : ℕ → Bool) (f : ℕ → α → α) (d : α) (i : ℕ) (l : List α) :
    (maskUpd mask f l).getD i d =
      if i < l.length ∧ mask i = true then f i (l.getD i d) else l.getD i d := by
  have h := getD_maskUpdAux mask f d 0 i l
  simp only [Nat.zero_add] at h
  exact h

theorem getD_map_of_lt (f : α → β) (l : List α) (i : ℕ) (d : α) (d' : β)
    (hi : i < l.length) : (l.map f).getD i d' = f (l.getD i d) := by
  induction l generalizing i with
  | nil => simp at hi
  | cons a t ih =>
    cases i with
    | zero => rfl
    | succ j =>
      simp only [List.length_cons] at hi
      exact ih j (by omega)

theorem getD_replicate_zero (n i : ℕ) : (List.replicate n (0 : ℕ)).getD i 0 = 0 := by
  induction n generalizing i with
  | zero => simp
  | succ m ih =>
    cases i with
    | zero => rfl
    | succ j => simp [List.replicate]

theorem phaseA_fst (pf : List Pt → ℚ × ℚ × ℚ) (cfg : Config) (pos : List Pt)
    (dist : List ℚ) :
    (phaseA pf cfg pos dist).1 = heights pos (phaseApar pf cfg pos dist) := rfl

theorem phaseA_flags (pf : List Pt → ℚ × ℚ × ℚ) (cfg : Config) (pos : List Pt)
    (dist : List ℚ) (i : ℕ) :
    getF (phaseA pf cfg pos dist).2 i =
      if i < pos.length ∧
          (grdCandidate cfg (getP pos i) (getQ dist i) &&
            decide (getQ (heights pos (phaseApar pf cfg pos dist)) i < cfg.dz_local)) = true
      then IS_GROUND else 0 := by
  show getF (maskUpd _ _ (List.replicate pos.length 0)) i = _
  simp only [getF, getD_maskUpd, List.length_replicate, getD_replicate_zero]
  by_cases h : i < pos.length ∧
      (grdCandidate cfg (getP pos i) (getQ dist i) &&
        decide (getQ (heights pos (phaseApar pf cfg pos dist)) i < cfg.dz_local)) = true
  · simp [h]
  · simp [h]

theorem heights_getQ (pos : List Pt) (par : ℚ × ℚ × ℚ) (i : ℕ)
    (hi : i < pos.length) :
    getQ (heights pos par) i =
      (getP pos i).2.2 - par.1 * (getP pos i).1 - par.2.1 * (getP pos i).2.1 - par.2.2 := by
  simp only [heights, getQ, getP]
  exact getD_map_of_lt _ pos i (0, 0, 0) 0 hi

/-- C1: in Ground Estimator Phase A, a point is a ground candidate iff
`|z + mount_height| < clip(range_xy * max_slope, dz_local, dz_global)`; after
the global fit `(a, b, c)` over the candidates, `height[i] = z - a*x - b*y - c`
holds for every point of the frame; and the ground bit is set exactly on the
candidates whose resulting height is `< dz_local`. -/
theorem C1_phaseA (pf : List Pt → ℚ × ℚ × ℚ) (cfg : Config) (pos : List Pt)
    (dist : List ℚ) (i : ℕ) (hi : i < pos.length) :
    (grdCandidate cfg (getP pos i) (getQ dist i) = true ↔
      |(getP pos i).2.2 + cfg.lidar_height| <
        clip (getQ dist i * cfg.max_slope) cfg.dz_local cfg.dz_global) ∧
    getQ (phaseA pf cfg pos dist).1 i =
      (getP pos i).2.2 - (phaseApar pf cfg pos dist).1 * (getP pos i).1
        - (phaseApar pf cfg pos dist).2.1 * (getP pos i).2.1
        - (phaseApar pf cfg pos dist).2.2 ∧
    (0 < getF (phaseA pf cfg pos dist).2 i &&& IS_GROUND ↔
      grdCandidate cfg (getP pos i) (getQ dist i) = true ∧
        getQ (phaseA pf cfg pos dist).1 i < cfg.dz_local) := by
  refine ⟨by simp [grdCandidate], ?_, ?_⟩
  · rw [phaseA_fst]
    exact heights_getQ pos _ i hi
  · rw [phaseA_flags, phaseA_fst]
    by_cases hc : grdCandidate cfg (getP pos i) (getQ dist i) = true
    · by_cases hh : getQ (heights pos (phaseApar pf cfg pos dist)) i < cfg.dz_local
      · simp [hi, hc, hh, IS_GROUND]
      · simp [hi, hc, hh]
    · simp [hi, hc]

/-- Witness for C1 at a concrete one-point frame. -/
theorem C1_phaseA_witness :
    (grdCandidate ⟨0, 1, 1, 1, 1, 1, 1, 1, 100, 1, 6, 3, 2, 5, 1⟩ (getP [((0 : ℚ), 1, 0)] 0)
        (getQ [(1 : ℚ)] 0) = true ↔
      |(getP [((0 : ℚ), 1, 0)] 0).2.2 + (0 : ℚ)| < clip (getQ [(1 : ℚ)] 0 * 1) 1 1) ∧
    getQ (phaseA plane_fit ⟨0, 1, 1, 1, 1, 1, 1, 1, 100, 1, 6, 3, 2, 5, 1⟩
        [((0 : ℚ), 1, 0)] [(1 : ℚ)]).1 0 =
      (getP [((0 : ℚ), 1, 0)] 0).2.2
        - (phaseApar plane_fit ⟨0, 1, 1, 1, 1, 1, 1, 1, 100, 1, 6, 3, 2, 5, 1⟩
            [((0 : ℚ), 1, 0)] [(1 : ℚ)]).1 * (getP [((0 : ℚ), 1, 0)] 0).1
        - (phaseApar plane_fit ⟨0, 1, 1, 1, 1, 1, 1, 1, 100, 1, 6, 3, 2, 5, 1⟩
            [((0 : ℚ), 1, 0)] [(1 : ℚ)]).2.1 * (getP [((0 : ℚ), 1, 0)] 0).2.1
        - (phaseApar plane_fit ⟨0, 1, 1, 1, 1, 1, 1, 1, 100, 1, 6, 3, 2, 5, 1⟩
            [((0 : ℚ), 1, 0)] [(1 : ℚ)]).2.2 ∧
    (0 < getF (phaseA plane_fit ⟨0, 1, 1, 1, 1, 1, 1, 1, 100, 1, 6, 3, 2, 5, 1⟩
        [((0 : ℚ), 1, 0)] [(1 : ℚ)]).2 0 &&& IS_GROUND ↔
      grdCandidate ⟨0, 1, 1, 1, 1, 1, 1, 1, 100, 1, 6, 3, 2, 5, 1⟩ (getP [((0 : ℚ), 1, 0)] 0)
          (getQ [(1 : ℚ)] 0) = true ∧
        getQ (phaseA plane_fit ⟨0, 1, 1, 1, 1, 1, 1, 1, 100, 1, 6, 3, 2, 5, 1⟩
            [((0 : ℚ), 1, 0)] [(1 : ℚ)]).1 0 < 1) :=
  C1_phaseA plane_fit ⟨0, 1, 1, 1, 1, 1, 1, 1, 100, 1, 6, 3, 2, 5, 1⟩
    [((0 : ℚ), 1, 0)] [(1 : ℚ)] 0 (by decide)

theorem pos_and_ground_of_or (n : ℕ) : 0 < (n ||| IS_GROUND) &&& IS_GROUND := by
  have h : ((n ||| IS_GROUND) &&& IS_GROUND).testBit 1 = true := by
    have h2 : Nat.testBit 2 1 = true := by decide
    simp [Nat.testBit_land, Nat.testBit_lor, IS_GROUND, h2]
  by_contra hcon
  have h0 : (n ||| IS_GROUND) &&& IS_GROUND = 0 := by omega
  rw [h0] at h
  simp at h

theorem refine_shape (isLocal : ℕ → Bool) (newh : ℕ → ℚ) (dzg dzl : ℚ)
    (h : List ℚ) (flags : List ℕ) (i : ℕ) (hf : i < flags.length)
    (hloc : isLocal i = true) :
    ((-dzg < getQ (maskUpd isLocal (fun j _ => newh j) h) i ∧
        getQ (maskUpd isLocal (fun j _ => newh j) h) i < dzl) →
      0 < getF (maskUpd isLocal (fun j f =>
          if decide (-dzg < getQ (maskUpd isLocal (fun j _ => newh j) h) j) &&
              decide (getQ (maskUpd isLocal (fun j _ => newh j) h) j < dzl)
            then f ||| IS_GROUND else 0) flags) i &&& IS_GROUND) ∧
    (¬ (-dzg < getQ (maskUpd isLocal (fun j _ => newh j) h) i ∧
        getQ (maskUpd isLocal (fun j _ => newh j) h) i < dzl) →
      getF (maskUpd isLocal (fun j f =>
          if decide (-dzg < getQ (maskUpd isLocal (fun j _ => newh j) h) j) &&
              decide (getQ (maskUpd isLocal (fun j _ => newh j) h) j < dzl)
            then f ||| IS_GROUND else 0) flags) i = 0) := by
  have hflag : getF (maskUpd isLocal (fun j f =>
      if decide (-dzg < getQ (maskUpd isLocal (fun j _ => newh j) h) j) &&
          decide (getQ (maskUpd isLocal (fun j _ => newh j) h) j < dzl)
        then f ||| IS_GROUND else 0) flags) i =
      if decide (-dzg < getQ (maskUpd isLocal (fun j _ => newh j) h) i) &&
          decide (getQ (maskUpd isLocal (fun j _ => newh j) h) i < dzl)
        then getF flags i ||| IS_GROUND else 0 := by
    unfold getF
    rw [getD_maskUpd]
    rw [if_pos ⟨hf, hloc⟩]
  constructor
  · intro hp
    rw [hflag, if_pos (by simp [hp.1, hp.2])]
    exact pos_and_ground_of_or _
  · intro hp
    rw [hflag, if_neg]
    simp only [Bool.and_eq_true, decide_eq_true_eq]
    exact hp

/-- C2: whenever Phase B locally refines a grid cell (the flagged 3x3
neighbourhood reached `min_grd_pts`), every point strictly inside the cell
whose recomputed height lies in `(-dz_global, dz_local)` gets the ground bit,
and every other point strictly inside the cell has its whole flags byte set
to 0. -/
theorem C2_local_refine (pf : List Pt → ℚ × ℚ × ℚ) (cfg : Config) (pos : List Pt)
    (xi yi : List ℤ) (iy ix : ℤ) (s : List ℚ × List ℕ)
    (hfire : cfg.min_grd_pts ≤ (toFitIdx xi yi s.2 ix iy).length)
    (i : ℕ) (hf : i < s.2.length)
    (hx : getZ xi i = ix) (hy : getZ yi i = iy) :
    ((-cfg.dz_global < getQ (phaseBCell pf cfg pos xi yi iy ix s).1 i ∧
        getQ (phaseBCell pf cfg pos xi yi iy ix s).1 i < cfg.dz_local) →
      0 < getF (phaseBCell pf cfg pos xi yi iy ix s).2 i &&& IS_GROUND) ∧
    (¬ (-cfg.dz_global < getQ (phaseBCell pf cfg pos xi yi iy ix s).1 i ∧
        getQ (phaseBCell pf cfg pos xi yi iy ix s).1 i < cfg.dz_local) →
      getF (phaseBCell pf cfg pos xi yi iy ix s).2 i = 0) := by
  have hnot : ¬ ((toFitIdx xi yi s.2 ix iy).length < cfg.min_grd_pts) :=
    Nat.not_lt.mpr hfire
  have hloc : (fun j => getZ xi j == ix && getZ yi j == iy) i = true := by
    simp [hx, hy]
  simp only [phaseBCell]
  rw [if_neg hnot]
  exact refine_shape _ _ cfg.dz_global cfg.dz_local s.1 s.2 i hf hloc

/-- Witness for C2: a one-point frame whose single cell fires. -/
theorem C2_local_refine_witness :
    ((-(1 : ℚ) < getQ (phaseBCell plane_fit ⟨0, 1, 1, 1, 1, 1, 1, 1, 1, 1, 1, 1, 2, 5, 1⟩
          [((0 : ℚ), 0, 0)] [(0 : ℤ)] [(0 : ℤ)] 0 0 ([(0 : ℚ)], [(2 : ℕ)])).1 0 ∧
        getQ (phaseBCell plane_fit ⟨0, 1, 1, 1, 1, 1, 1, 1, 1, 1, 1, 1, 2, 5, 1⟩
          [((0 : ℚ), 0, 0)] [(0 : ℤ)] [(0 : ℤ)] 0 0 ([(0 : ℚ)], [(2 : ℕ)])).1 0 < 1) →
      0 < getF (phaseBCell plane_fit ⟨0, 1, 1, 1, 1, 1, 1, 1, 1, 1, 1, 1, 2, 5, 1⟩
          [((0 : ℚ), 0, 0)] [(0 : ℤ)] [(0 : ℤ)] 0 0 ([(0 : ℚ)], [(2 : ℕ)])).2 0 &&& IS_GROUND) ∧
    (¬ (-(1 : ℚ) < getQ (phaseBCell plane_fit ⟨0, 1, 1, 1, 1, 1, 1, 1, 1, 1, 1, 1, 2, 5, 1⟩
          [((0 : ℚ), 0, 0)] [(0 : ℤ)] [(0 : ℤ)] 0 0 ([(0 : ℚ)], [(2 : ℕ)])).1 0 ∧
        getQ (phaseBCell plane_fit ⟨0, 1, 1, 1, 1, 1, 1, 1, 1, 1, 1, 1, 2, 5, 1⟩
          [((0 : ℚ), 0, 0)] [(0 : ℤ)] [(0 : ℤ)] 0 0 ([(0 : ℚ)], [(2 : ℕ)])).1 0 < 1) →
      getF (phaseBCell plane_fit ⟨0, 1, 1, 1, 1, 1, 1, 1, 1, 1, 1, 1, 2, 5, 1⟩
          [((0 : ℚ), 0, 0)] [(0 : ℤ)] [(0 : ℤ)] 0 0 ([(0 : ℚ)], [(2 : ℕ)])).2 0 = 0) :=
  C2_local_refine plane_fit ⟨0, 1, 1, 1, 1, 1, 1, 1, 1, 1, 1, 1, 2, 5, 1⟩
    [((0 : ℚ), 0, 0)] [(0 : ℤ)] [(0 : ℤ)] 0 0 ([(0 : ℚ)], [(2 : ℕ)])
    (by decide) 0 (by decide) (by decide) (by decide)

/-! ### Helper lemmas for the clustering sweep -/

theorem foldl_max_seed (f : ℕ → ℕ) :
    ∀ (l : List ℕ) (a : ℕ), a ≤ l.foldl (fun m j => max m (f j)) a := by
  intro l
  induction l with
  | nil => intro a; exact le_refl a
  | cons b t ih =>
    intro a
    exact le_trans (le_max_left a (f b)) (ih (max a (f b)))

theorem foldl_max_ub (f : ℕ → ℕ) :
    ∀ (l : List ℕ) (a i : ℕ), i ∈ l → f i ≤ l.foldl (fun m j => max m (f j)) a := by
  intro l
  induction l with
  | nil => intro a i hi; exact absurd hi (List.not_mem_nil i)
  | cons b t ih =>
    intro a i hi
    rcases List.mem_cons.mp hi with rfl | ht
    · exact le_trans (le_max_right a (f i)) (foldl_max_seed f t (max a (f i)))
    · exact ih (max a (f b)) i ht

theorem foldl_max_mem (f : ℕ → ℕ) :
    ∀ (l : List ℕ) (a : ℕ),
      l.foldl (fun m j => max m (f j)) a = a ∨
        ∃ i ∈ l, f i = l.foldl (fun m j => max m (f j)) a := by
  intro l
  induction l with
  | nil => intro a; exact Or.inl rfl
  | cons b t ih =>
    intro a
    rcases ih (max a (f b)) with h0 | ⟨i, hi, he⟩
    · rcases max_choice a (f b) with hm | hm
      · exact Or.inl (by rw [List.foldl_cons, h0, hm])
      · exact Or.inr ⟨b, List.mem_cons_self b t, by rw [List.foldl_cons, h0, hm]⟩
    · exact Or.inr ⟨i, List.mem_cons_of_mem b hi, he⟩

theorem maxMask_ub (arr : List ℕ) (n : ℕ) (mask : ℕ → Bool) (j : ℕ)
    (hj : j < n) (hm : mask j = true) : getF arr j ≤ maxMask arr n mask :=
  foldl_max_ub _ _ 0 j (List.mem_filter.mpr ⟨List.mem_range.mpr hj, hm⟩)

theorem maxMask_attained (arr : List ℕ) (n : ℕ) (mask : ℕ → Bool) (j : ℕ)
    (hj : j < n) (hm : mask j = true) :
    ∃ k, k < n ∧ mask k = true ∧ getF arr k = maxMask arr n mask := by
  rcases foldl_max_mem (getF arr) ((List.range n).filter mask) 0 with h0 | ⟨i, hi, he⟩
  · refine ⟨j, hj, hm, ?_⟩
    have h1 := maxMask_ub arr n mask j hj hm
    have h2 : maxMask arr n mask = 0 := h0
    omega
  · have h1 := List.mem_filter.mp hi
    exact ⟨i, List.mem_range.mp h1.1, h1.2, he⟩

theorem countMask_pos (n : ℕ) (mask : ℕ → Bool) (i : ℕ)
    (hi : i < n) (hm : mask i = true) : 1 ≤ countMask n mask := by
  have h : i ∈ (List.range n).filter mask :=
    List.mem_filter.mpr ⟨List.mem_range.mpr hi, hm⟩
  have := List.length_pos.mpr (List.ne_nil_of_mem h)
  unfold countMask
  omega

theorem foldl_inv {σ α : Type} (f : σ → α → σ) (P : σ → Prop)
    (hstep : ∀ s a, P s → P (f s a)) :
    ∀ (l : List α) (s : σ), P s → P (l.foldl f s) := by
  intro l
  induction l with
  | nil => intro s hs; exact hs
  | cons a t ih => intro s hs; exact ih (f s a) (hstep s a hs)

theorem blockStep_cid_length (cfg : Config) (h : List ℚ) (xi yi : List ℤ)
    (ix iy : ℤ) (s : CState) :
    (blockStep cfg h xi yi ix iy s).cid.length = s.cid.length := by
  simp only [blockStep]
  split
  · rfl
  · split
    · exact maskUpd_length _ _ _
    · split
      · exact maskUpd_length _ _ _
      · rfl

theorem blockStep_unchanged (cfg : Config) (h : List ℚ) (xi yi : List ℤ)
    (ix iy : ℤ) (s : CState) (i : ℕ)
    (hout : ¬ (i < s.cid.length ∧ blockMask cfg h xi yi ix iy i = true)) :
    getF (blockStep cfg h xi yi ix iy s).cid i = getF s.cid i := by
  simp only [blockStep]
  split
  · rfl
  · split
    · show getF (maskUpd _ _ s.cid) i = getF s.cid i
      unfold getF
      rw [getD_maskUpd, if_neg hout]
    · split
      · show getF (maskUpd _ _ s.cid) i = getF s.cid i
        unfold getF
        rw [getD_maskUpd, if_neg hout]
      · rfl

theorem foldl_max_le (f : ℕ → ℕ) :
    ∀ (l : List ℕ) (a c : ℕ), a ≤ c → (∀ i ∈ l, f i ≤ c) →
      l.foldl (fun m j => max m (f j)) a ≤ c := by
  intro l
  induction l with
  | nil => intro a c ha _; exact ha
  | cons b t ih =>
    intro a c ha hl
    refine ih (max a (f b)) c (max_le ha (hl b (List.mem_cons_self b t))) ?_
    intro i hi
    exact hl i (List.mem_cons_of_mem b hi)

theorem maxMask_le (arr : List ℕ) (n : ℕ) (mask : ℕ → Bool) (c : ℕ)
    (hc : ∀ j, j < n → mask j = true → getF arr j ≤ c) :
    maxMask arr n mask ≤ c := by
  refine foldl_max_le _ _ 0 c (Nat.zero_le c) ?_
  intro i hi
  have h := List.mem_filter.mp hi
  exact hc i (List.mem_range.mp h.1) h.2

theorem blockMask_hcut (cfg : Config) (h : List ℚ) (xi yi : List ℤ)
    (ix iy : ℤ) (i : ℕ) (hb : blockMask cfg h xi yi ix iy i = true) :
    hcutMask cfg h i = true := by
  simp only [blockMask, inXMask, Bool.and_eq_true] at hb
  exact hb.1.2

theorem clustering_band (cfg : Config) (h : List ℚ) (xi yi : List ℤ) (st : CState)
    (hst : clustering cfg h xi yi = some st) :
    ∀ i, ¬ (i < xi.length ∧ hcutMask cfg h i = true) → getF st.cid i = 0 := by
  have hP : st.cid.length = xi.length ∧
      (∀ i, ¬ (i < xi.length ∧ hcutMask cfg h i = true) → getF st.cid i = 0) := by
    unfold clustering at hst
    by_cases he : xi.isEmpty
    · rw [if_pos he] at hst; exact absurd hst (by simp)
    · rw [if_neg he] at hst
      have hst' := Option.some.inj hst
      subst hst'
      refine foldl_inv _ (fun st : CState => st.cid.length = xi.length ∧
        ∀ i, ¬ (i < xi.length ∧ hcutMask cfg h i = true) → getF st.cid i = 0) ?_ _ _ ?_
      · intro s' ixv hs'
        unfold colStep
        split
        · exact hs'
        · refine foldl_inv _ (fun st : CState => st.cid.length = xi.length ∧
            ∀ i, ¬ (i < xi.length ∧ hcutMask cfg h i = true) → getF st.cid i = 0) ?_ _ _ hs'
          intro s'' iyv hs''
          refine ⟨?_, ?_⟩
          · rw [blockStep_cid_length]; exact hs''.1
          · intro k hk
            rw [blockStep_unchanged cfg h xi yi ixv iyv s'' k ?_]
            · exact hs''.2 k hk
            · rw [hs''.1]
              intro hcon
              exact hk ⟨hcon.1, blockMask_hcut cfg h xi yi ixv iyv k hcon.2⟩
      · constructor
        · simp
        · intro k _
          unfold getF
          exact getD_replicate_zero _ _
  exact hP.2

/-- C3: a Cluster Builder block step, over the height band
`[dz_local, base_h_cut)` only: points outside the 2x2 block keep their id;
a block holding a nonzero id propagates the maximum id present in the block
to the whole block; an all-unassigned block gets the fresh id `next_cid`
exactly when its occupancy reaches `min_samples` and is left unchanged
otherwise; and the full sweep leaves every point outside the height band at
id 0. -/
theorem C3_blockStep (cfg : Config) (h : List ℚ) (xi yi : List ℤ) (ix iy : ℤ)
    (s : CState) (hlen : s.cid.length = xi.length) :
    (∀ i, ¬ (i < xi.length ∧ blockMask cfg h xi yi ix iy i = true) →
      getF (blockStep cfg h xi yi ix iy s).cid i = getF s.cid i) ∧
    ((∃ j, j < xi.length ∧ blockMask cfg h xi yi ix iy j = true ∧ 0 < getF s.cid j) →
      (∃ k, k < xi.length ∧ blockMask cfg h xi yi ix iy k = true ∧
        getF s.cid k = maxMask s.cid xi.length (blockMask cfg h xi yi ix iy)) ∧
      (∀ j, j < xi.length → blockMask cfg h xi yi ix iy j = true →
        getF s.cid j ≤ maxMask s.cid xi.length (blockMask cfg h xi yi ix iy)) ∧
      (∀ i, i < xi.length → blockMask cfg h xi yi ix iy i = true →
        getF (blockStep cfg h xi yi ix iy s).cid i =
          maxMask s.cid xi.length (blockMask cfg h xi yi ix iy))) ∧
    ((∀ j, j < xi.length → blockMask cfg h xi yi ix iy j = true → getF s.cid j = 0) →
      (cfg.min_samples ≤ countMask xi.length (blockMask cfg h xi yi ix iy) →
        ∀ i, i < xi.length → blockMask cfg h xi yi ix iy i = true →
          getF (blockStep cfg h xi yi ix iy s).cid i = s.next) ∧
      (countMask xi.length (blockMask cfg h xi yi ix iy) < cfg.min_samples →
        blockStep cfg h xi yi ix iy s = s)) ∧
    (∀ st, clustering cfg h xi yi = some st →
      ∀ i, ¬ (i < xi.length ∧ hcutMask cfg h i = true) → getF st.cid i = 0) := by
  refine ⟨?_, ?_, ?_, ?_⟩
  · intro i hout
    refine blockStep_unchanged cfg h xi yi ix iy s i ?_
    rw [hlen]
    exact hout
  · rintro ⟨j, hj, hbj, hpos⟩
    have hub := fun k hk hbk => maxMask_ub s.cid xi.length
      (blockMask cfg h xi yi ix iy) k hk hbk
    have hat := maxMask_attained s.cid xi.length
      (blockMask cfg h xi yi ix iy) j hj hbj
    refine ⟨hat, hub, ?_⟩
    intro i hi hbi
    have hcount := countMask_pos xi.length (blockMask cfg h xi yi ix iy) j hj hbj
    have hm : 0 < maxMask s.cid xi.length (blockMask cfg h xi yi ix iy) :=
      lt_of_lt_of_le hpos (hub j hj hbj)
    simp only [blockStep]
    rw [if_neg (by omega), if_pos hm]
    show getF (maskUpd _ _ s.cid) i = _
    unfold getF
    rw [getD_maskUpd, if_pos ⟨by omega, hbi⟩]
  · intro hz
    have hm : maxMask s.cid xi.length (blockMask cfg h xi yi ix iy) = 0 :=
      Nat.le_zero.mp (maxMask_le _ _ _ 0 (fun j hj hbj => Nat.le_zero.mpr (hz j hj hbj)))
    constructor
    · intro hcount i hi hbi
      have h1 := countMask_pos xi.length (blockMask cfg h xi yi ix iy) i hi hbi
      simp only [blockStep]
      rw [if_neg (by omega), if_neg (by omega), if_pos hcount]
      show getF (maskUpd _ _ s.cid) i = _
      unfold getF
      rw [getD_maskUpd, if_pos ⟨by omega, hbi⟩]
    · intro hsmall
      by_cases hc1 : countMask xi.length (blockMask cfg h xi yi ix iy) < 1
      · simp only [blockStep]
        rw [if_pos hc1]
      · simp only [blockStep]
        rw [if_neg hc1, if_neg (by omega), if_neg (by omega)]
  · intro st hst i hout
    exact clustering_band cfg h xi yi st hst i hout

/-- Witness for C3: in the concrete frame, the block at `(ix, iy) = (2, 1)`
is all-unassigned with occupancy 1 = `min_samples`, so it receives the fresh
id `next_cid = 1`. -/
theorem C3_blockStep_witness :
    getF (blockStep cfgX hX xiX yiX 2 1 ⟨List.replicate 6 0, 1, []⟩).cid 1 = 1 :=
  ((C3_blockStep cfgX hX xiX yiX 2 1 ⟨List.replicate 6 0, 1, []⟩
      (by decide)).2.2.1 (of_decide_eq_true (by with_unfolding_all rfl))).1
    (of_decide_eq_true (by with_unfolding_all rfl)) 1 (by decide)
    (by with_unfolding_all rfl)

theorem blockStep_inv (cfg : Config) (h : List ℚ) (xi yi : List ℤ) (ix iy : ℤ)
    (s : CState)
    (hs : s.next = s.issued.length + 1 ∧ s.issued = List.range' 1 s.issued.length ∧
      ∀ i, getF s.cid i < s.next) :
    (blockStep cfg h xi yi ix iy s).next = (blockStep cfg h xi yi ix iy s).issued.length + 1 ∧
    (blockStep cfg h xi yi ix iy s).issued =
      List.range' 1 (blockStep cfg h xi yi ix iy s).issued.length ∧
    ∀ i, getF (blockStep cfg h xi yi ix iy s).cid i < (blockStep cfg h xi yi ix iy s).next := by
  obtain ⟨h1, h2, h3⟩ := hs
  simp only [blockStep]
  split
  · exact ⟨h1, h2, h3⟩
  · split
    · refine ⟨h1, h2, ?_⟩
      intro i
      show getF (maskUpd _ _ s.cid) i < s.next
      unfold getF
      rw [getD_maskUpd]
      split
      · have hm := maxMask_le s.cid xi.length (blockMask cfg h xi yi ix iy) (s.next - 1)
          (fun j _ _ => by have := h3 j; unfold getF at this ⊢; omega)
        have : s.next = s.issued.length + 1 := h1
        omega
      · exact h3 i
    · split
      · refine ⟨?_, ?_, ?_⟩
        · show s.next + 1 = (s.issued ++ [s.next]).length + 1
          rw [List.length_append]
          simp [h1]
        · show s.issued ++ [s.next] = List.range' 1 (s.issued ++ [s.next]).length
          rw [List.length_append]
          simp only [List.length_singleton]
          rw [List.range'_concat]
          rw [← h2, one_mul]
          have : s.next = 1 + s.issued.length := by omega
          rw [this]
        · intro i
          show getF (maskUpd _ _ s.cid) i < s.next + 1
          unfold getF
          rw [getD_maskUpd]
          split
          · omega
          · have := h3 i
            unfold getF at this
            omega
      · exact ⟨h1, h2, h3⟩

theorem clustering_inv (cfg : Config) (h : List ℚ) (xi yi : List ℤ) (st : CState)
    (hst : clustering cfg h xi yi = some st) :
    st.next = st.issued.length + 1 ∧ st.issued = List.range' 1 st.issued.length ∧
    ∀ i, getF st.cid i < st.next := by
  unfold clustering at hst
  by_cases he : xi.isEmpty
  · rw [if_pos he] at hst
    exact absurd hst (by simp)
  · rw [if_neg he] at hst
    have hst' := Option.some.inj hst
    subst hst'
    refine foldl_inv _ (fun s : CState => s.next = s.issued.length + 1 ∧
      s.issued = List.range' 1 s.issued.length ∧ ∀ i, getF s.cid i < s.next) ?_ _ _ ?_
    · intro s ixv hs
      unfold colStep
      split
      · exact hs
      · exact foldl_inv _ (fun s : CState => s.next = s.issued.length + 1 ∧
          s.issued = List.range' 1 s.issued.length ∧ ∀ i, getF s.cid i < s.next)
          (fun s' iyv hs' => blockStep_inv cfg h xi yi ixv iyv s' hs') _ _ hs
    · refine ⟨rfl, rfl, ?_⟩
      intro i
      show getF (List.replicate xi.length 0) i < 1
      unfold getF
      rw [getD_replicate_zero]
      omega

/-- C4: cluster ids are allocated consecutively starting at 1 (the ghost
trace of issued ids is `[1, 2, ..., k]` in allocation order, and `next_cid`
is always one past the number of allocations), and no point's final id
exceeds the number of new-id allocations performed during the sweep. -/
theorem C4_cluster_ids (cfg : Config) (h : List ℚ) (xi yi : List ℤ) (st : CState)
    (hst : clustering cfg h xi yi = some st) :
    st.issued = List.range' 1 st.issued.length ∧
    st.next = st.issued.length + 1 ∧
    ∀ i, getF st.cid i ≤ st.issued.length := by
  obtain ⟨h1, h2, h3⟩ := clustering_inv cfg h xi yi st hst
  refine ⟨h2, h1, ?_⟩
  intro i
  have := h3 i
  omega

/-- Witness for C4 on the concrete frame: the sweep allocates ids `[1, 2]`
and every point's id is at most 2. -/
theorem C4_cluster_ids_witness :
    (⟨[0, 1, 0, 2, 0, 0], 3, [1, 2]⟩ : CState).issued =
      List.range' 1 (⟨[0, 1, 0, 2, 0, 0], 3, [1, 2]⟩ : CState).issued.length ∧
    (⟨[0, 1, 0, 2, 0, 0], 3, [1, 2]⟩ : CState).next =
      (⟨[0, 1, 0, 2, 0, 0], 3, [1, 2]⟩ : CState).issued.length + 1 ∧
    ∀ i, getF (⟨[0, 1, 0, 2, 0, 0], 3, [1, 2]⟩ : CState).cid i ≤
      (⟨[0, 1, 0, 2, 0, 0], 3, [1, 2]⟩ : CState).issued.length :=
  C4_cluster_ids cfgX hX xiX yiX ⟨[0, 1, 0, 2, 0, 0], 3, [1, 2]⟩
    (by with_unfolding_all rfl)

theorem countMask_eq_zero (n : ℕ) (mask : ℕ → Bool)
    (h : ∀ i, i < n → mask i = false) : countMask n mask = 0 := by
  unfold countMask
  rw [List.length_eq_zero]
  rw [List.filter_eq_nil_iff]
  intro a ha
  rw [h a (List.mem_range.mp ha)]
  exact Bool.false_ne_true

theorem maskUpdAux_of_false (mask : ℕ → Bool) (f : ℕ → α → α) :
    ∀ (k : ℕ) (l : List α), (∀ j, j < l.length → mask (k + j) = false) →
      maskUpdAux mask f k l = l := by
  intro k l
  induction l generalizing k with
  | nil => intro _; rfl
  | cons a t ih =>
    intro hm
    have h0 : mask k = false := by
      have := hm 0 (by simp)
      simpa using this
    simp only [maskUpdAux, h0, if_neg Bool.false_ne_true, Bool.false_eq_true, if_false]
    rw [ih (k + 1)]
    intro j hj
    have := hm (j + 1) (by simp; omega)
    rw [← this]
    congr 1
    omega

theorem maskUpd_of_false (mask : ℕ → Bool) (f : ℕ → α → α) (l : List α)
    (h : ∀ j, j < l.length → mask j = false) : maskUpd mask f l = l :=
  maskUpdAux_of_false mask f 0 l (by simpa using h)

theorem getD_range (n k : ℕ) (hk : k < n) : (List.range n).getD k 0 = k := by
  rw [List.getD_eq_getElem (List.range n) 0 (by simpa using hk)]
  apply List.getElem_range

/-- C5: the Cluster Grower, for one cluster id: it skips the id when no point
currently carrying it lies in the connect layer `h > base_h_cut - dz_global`;
a layer selection picks exactly the points of the half-open layer
`[h0, h0 + h_grid_size)` within Chebyshev distance 1 (in bin space) of the
active footprint; an empty selection stops the growth of the id with the
remaining layers untouched; a nonempty selection assigns the id to exactly
the selected points and recomputes the footprint as the cells of the
selected points; and the layer grid runs from `base_h_cut` in steps of
`h_grid_size`, staying below `h_max_cut`. -/
theorem C5_grow (cfg : Config) (xi yi : List ℤ) (h : List ℚ) (cid : ℕ)
    (cids : List ℕ) (hlen : cids.length = xi.length) :
    ((∀ i, i < xi.length → ¬ (connectMask cfg h i = true ∧ getF cids i = cid)) →
      growOne cfg xi yi h cids cid = cids) ∧
    (∀ (grids : List (ℤ × ℤ)) (h0 : ℚ) (i : ℕ),
      layerSel cfg xi yi h grids h0 i = true ↔
        ((∃ g, g ∈ grids ∧ |getZ xi i - g.1| ≤ 1 ∧ |getZ yi i - g.2| ≤ 1) ∧
          (h0 ≤ getQ h i ∧ getQ h i < h0 + cfg.h_grid_size))) ∧
    (∀ (grids : List (ℤ × ℤ)) (h0 : ℚ) (rest : List ℚ),
      (∀ i, i < xi.length → layerSel cfg xi yi h grids h0 i = false) →
        growLayers cfg xi yi h cid (h0 :: rest) grids cids = cids) ∧
    (∀ (grids : List (ℤ × ℤ)) (h0 : ℚ) (rest : List ℚ),
      (∃ i, i < xi.length ∧ layerSel cfg xi yi h grids h0 i = true) →
        growLayers cfg xi yi h cid (h0 :: rest) grids cids =
          growLayers cfg xi yi h cid rest
            (gridsOf xi yi xi.length (layerSel cfg xi yi h grids h0))
            (maskUpd (layerSel cfg xi yi h grids h0) (fun _ _ => cid) cids) ∧
        (∀ i, i < xi.length → layerSel cfg xi yi h grids h0 i = true →
          getF (maskUpd (layerSel cfg xi yi h grids h0) (fun _ _ => cid) cids) i = cid) ∧
        (∀ i, ¬ (i < xi.length ∧ layerSel cfg xi yi h grids h0 i = true) →
          getF (maskUpd (layerSel cfg xi yi h grids h0) (fun _ _ => cid) cids) i =
            getF cids i)) ∧
    (∀ (sel : ℕ → Bool) (g : ℤ × ℤ),
      g ∈ gridsOf xi yi xi.length sel ↔
        ∃ i, i < xi.length ∧ sel i = true ∧ g = (getZ xi i, getZ yi i)) ∧
    (0 < cfg.h_grid_size → ∀ k, k < layerCount cfg →
      getQ (layerList cfg) k = cfg.base_h_cut + (k : ℚ) * cfg.h_grid_size ∧
      cfg.base_h_cut + (k : ℚ) * cfg.h_grid_size < cfg.h_max_cut) := by
  refine ⟨?_, ?_, ?_, ?_, ?_, ?_⟩
  · intro hA
    have hz : countMask xi.length
        (fun i => connectMask cfg h i && (getF cids i == cid)) = 0 := by
      refine countMask_eq_zero _ _ ?_
      intro i hi
      rcases hb : (connectMask cfg h i && (getF cids i == cid)) with _ | _
      · rfl
      · rw [Bool.and_eq_true, beq_iff_eq] at hb
        exact absurd ⟨hb.1, hb.2⟩ (hA i hi)
    simp only [growOne]
    rw [if_pos (by omega)]
  · intro grids h0 i
    simp only [layerSel, chebNear, inLayerMask, Bool.and_eq_true, decide_eq_true_eq,
      List.any_eq_true]
    constructor
    · rintro ⟨⟨g, hg, hx1, hy1⟩, hl1, hl2⟩
      exact ⟨⟨g, hg, by omega, by omega⟩, hl1, hl2⟩
    · rintro ⟨⟨g, hg, hx1, hy1⟩, hl1, hl2⟩
      exact ⟨⟨g, hg, by omega, by omega⟩, hl1, hl2⟩
  · intro grids h0 rest hall
    simp only [growLayers]
    rw [if_pos, maskUpd_of_false]
    · intro j hj
      exact hall j (by omega)
    · have := countMask_eq_zero xi.length (layerSel cfg xi yi h grids h0) hall
      omega
  · rintro grids h0 rest ⟨i, hi, hsel⟩
    have hc := countMask_pos xi.length (layerSel cfg xi yi h grids h0) i hi hsel
    refine ⟨?_, ?_, ?_⟩
    · simp only [growLayers]
      rw [if_neg (by omega)]
    · intro j hj hs
      unfold getF
      rw [getD_maskUpd, if_pos ⟨by omega, hs⟩]
    · intro j hj
      unfold getF
      rw [getD_maskUpd, if_neg]
      rw [hlen]
      exact hj
  · intro sel g
    simp only [gridsOf, List.mem_dedup, List.mem_map, List.mem_filter, List.mem_range]
    constructor
    · rintro ⟨i, ⟨hi, hs⟩, rfl⟩
      exact ⟨i, hi, hs, rfl⟩
    · rintro ⟨i, hi, hs, rfl⟩
      exact ⟨i, ⟨hi, hs⟩, rfl⟩
  · intro hs k hk
    constructor
    · unfold getQ layerList
      rw [getD_map_of_lt (fun j : ℕ => cfg.base_h_cut + (j : ℚ) * cfg.h_grid_size)
        (List.range (layerCount cfg)) k 0 0 (by rw [List.length_range]; exact hk)]
      rw [getD_range (layerCount cfg) k hk]
    · have hkz : ((k : ℤ) : ℚ) < (cfg.h_max_cut - cfg.base_h_cut) / cfg.h_grid_size := by
        refine Int.lt_ceil.mp ?_
        unfold layerCount at hk
        omega
      have hkq : (k : ℚ) < (cfg.h_max_cut - cfg.base_h_cut) / cfg.h_grid_size := by
        exact_mod_cast hkz
      have hmul := mul_lt_mul_of_pos_right hkq hs
      rw [div_mul_cancel₀ _ (ne_of_gt hs)] at hmul
      linarith

/-- Witness for C5: in the concrete frame no point carries id 3, so the
grower skips that id and leaves the cluster ids unchanged. -/
theorem C5_grow_witness :
    growOne cfgX xiX yiX hX [0, 1, 0, 2, 0, 0] 3 = [0, 1, 0, 2, 0, 0] :=
  (C5_grow cfgX xiX yiX hX 3 [0, 1, 0, 2, 0, 0] (by decide)).1
    (of_decide_eq_true (by with_unfolding_all rfl))

/-- C6 counterexample: the claim says the range bin is
`floor((range_xy - min_dist) / dist_grid_size)`, but `.astype(np.int16)`
truncates toward zero (and wraps to `int16`). For the point `(0, 1/2, 0)`
under unit bins with `min_dist = 1` the quotient is `-1/2`: the code
produces bin 0 while the claimed floor is `-1`. -/
theorem C6_counterexample :
    y_idx gcfg ((0 : ℝ), 1/2, 0) = 0 ∧
    ⌊(distXY ((0 : ℝ), 1/2, 0) - (gcfg.min_dist : ℝ)) / (gcfg.dist_grid_size : ℝ)⌋ = -1 := by
  have hd : distXY ((0 : ℝ), 1/2, 0) = 1/2 := by
    unfold distXY
    rw [show (((0 : ℝ), (1 : ℝ)/2, (0 : ℝ)).1 ^ 2 + ((0 : ℝ), (1 : ℝ)/2, (0 : ℝ)).2.1 ^ 2)
      = ((1 : ℝ)/2) ^ 2 by norm_num]
    exact Real.sqrt_sq (by norm_num)
  have hm : (gcfg.min_dist : ℝ) = 1 := by norm_num [gcfg]
  have hg : (gcfg.dist_grid_size : ℝ) = 1 := by norm_num [gcfg]
  constructor
  · unfold y_idx astype16 truncInt
    rw [hd, hm, hg]
    rw [if_neg (by norm_num)]
    rw [show (⌈((1 : ℝ)/2 - 1) / 1⌉ : ℤ) = 0 by norm_num]
    decide
  · rw [hd, hm, hg]
    norm_num

theorem int16Wrap_eq_self (z : ℤ) (h1 : -2 ^ 15 ≤ z) (h2 : z < 2 ^ 15) :
    int16Wrap z = z := by
  unfold int16Wrap
  omega

theorem astype16_eq_floor (r : ℝ) (h1 : 0 ≤ r) (h2 : r < 2 ^ 15) :
    astype16 r = ⌊r⌋ := by
  unfold astype16 truncInt
  rw [if_pos h1]
  refine int16Wrap_eq_self _ ?_ ?_
  · exact le_trans (by norm_num) (Int.floor_nonneg.mpr h1)
  · exact Int.floor_lt.mpr (by exact_mod_cast h2)

/-- The embedded cast reproduces the `int16` wrap of `.astype(np.int16)`:
at the point `(0, 40000, 0)` under `gcfg` the range quotient is 39999, and
the bin wraps to -25537 rather than the floor 39999. -/
theorem y_idx_wraps_at_overflow : y_idx gcfg ((0 : ℝ), 40000, 0) = -25537 := by
  have hd : distXY ((0 : ℝ), 40000, 0) = 40000 := by
    unfold distXY
    rw [show (((0 : ℝ), (40000 : ℝ), (0 : ℝ)).1 ^ 2 +
        ((0 : ℝ), (40000 : ℝ), (0 : ℝ)).2.1 ^ 2) = (40000 : ℝ) ^ 2 by norm_num]
    exact Real.sqrt_sq (by norm_num)
  unfold y_idx astype16 truncInt
  rw [hd]
  rw [if_pos (by norm_num [gcfg])]
  rw [show (⌊((40000 : ℝ) - (gcfg.min_dist : ℝ)) / (gcfg.dist_grid_size : ℝ)⌋ : ℤ)
    = 39999 by norm_num [gcfg]]
  decide

/-- C6 (amended): for every point of the frame, the Grid Indexer computes
each bin by the C-style `int16` cast — truncation toward zero followed by a
wrap modulo `2^16` into `[-2^15, 2^15)` — of, respectively,
`(asin(x / range_xy) + max_theta) / theta_grid_size` and
`(range_xy - min_dist) / dist_grid_size`; whenever the quotient is
nonnegative and below `2^15`, as hypothesised here, the cast agrees with the
claimed `floor`. -/
theorem C6_amended (cfg : Config) (pos : List RPt) (i : ℕ) (hi : i < pos.length)
    (hx : 0 ≤ (Real.arcsin ((pos.getD i (0, 0, 0)).1 /
        Real.sqrt ((pos.getD i (0, 0, 0)).1 ^ 2 + (pos.getD i (0, 0, 0)).2.1 ^ 2)) +
        (cfg.max_theta : ℝ)) / (cfg.theta_grid_size : ℝ))
    (hx2 : (Real.arcsin ((pos.getD i (0, 0, 0)).1 /
        Real.sqrt ((pos.getD i (0, 0, 0)).1 ^ 2 + (pos.getD i (0, 0, 0)).2.1 ^ 2)) +
        (cfg.max_theta : ℝ)) / (cfg.theta_grid_size : ℝ) < 2 ^ 15)
    (hy : 0 ≤ (Real.sqrt ((pos.getD i (0, 0, 0)).1 ^ 2 + (pos.getD i (0, 0, 0)).2.1 ^ 2) -
        (cfg.min_dist : ℝ)) / (cfg.dist_grid_size : ℝ))
    (hy2 : (Real.sqrt ((pos.getD i (0, 0, 0)).1 ^ 2 + (pos.getD i (0, 0, 0)).2.1 ^ 2) -
        (cfg.min_dist : ℝ)) / (cfg.dist_grid_size : ℝ) < 2 ^ 15) :
    (gridding cfg pos).getD i (0, 0) =
      (⌊(Real.arcsin ((pos.getD i (0, 0, 0)).1 /
          Real.sqrt ((pos.getD i (0, 0, 0)).1 ^ 2 + (pos.getD i (0, 0, 0)).2.1 ^ 2)) +
          (cfg.max_theta : ℝ)) / (cfg.theta_grid_size : ℝ)⌋,
        ⌊(Real.sqrt ((pos.getD i (0, 0, 0)).1 ^ 2 + (pos.getD i (0, 0, 0)).2.1 ^ 2) -
          (cfg.min_dist : ℝ)) / (cfg.dist_grid_size : ℝ)⌋) := by
  unfold gridding
  rw [getD_map_of_lt _ pos i (0, 0, 0) (0, 0) hi]
  unfold x_idx y_idx thetaOf distXY
  rw [astype16_eq_floor _ hx hx2, astype16_eq_floor _ hy hy2]

/-- Witness for C6 (amended) at the point `(0, 1, 0)` under `gcfg`: both
quotients are nonnegative, so both bins equal the floors. -/
theorem C6_amended_witness :
    (gridding gcfg [((0 : ℝ), 1, 0)]).getD 0 (0, 0) =
      (⌊(Real.arcsin ((([((0 : ℝ), 1, 0)]).getD 0 (0, 0, 0)).1 /
          Real.sqrt ((([((0 : ℝ), 1, 0)]).getD 0 (0, 0, 0)).1 ^ 2 +
            (([((0 : ℝ), 1, 0)]).getD 0 (0, 0, 0)).2.1 ^ 2)) +
          (gcfg.max_theta : ℝ)) / (gcfg.theta_grid_size : ℝ)⌋,
        ⌊(Real.sqrt ((([((0 : ℝ), 1, 0)]).getD 0 (0, 0, 0)).1 ^ 2 +
            (([((0 : ℝ), 1, 0)]).getD 0 (0, 0, 0)).2.1 ^ 2) -
          (gcfg.min_dist : ℝ)) / (gcfg.dist_grid_size : ℝ)⌋) :=
  C6_amended gcfg [((0 : ℝ), 1, 0)] 0 (by simp)
    (by norm_num [Real.arcsin_zero, Real.sqrt_one, gcfg])
    (by norm_num [Real.arcsin_zero, Real.sqrt_one, gcfg])
    (by norm_num [Real.sqrt_one, gcfg])
    (by norm_num [Real.sqrt_one, gcfg])

/-- C7: the code has no guard for degenerate geometry. The point `(0, 0, 5)`
has `range_xy = 0`; numpy evaluates `arcsin(0/0)` to NaN and casts it to an
arbitrary `int16`, yet the point is neither clamped nor excluded: it still
receives a grid cell computed by the unguarded formulas (over `ℝ`, with the
`x / 0 = 0` convention, the cell is `(1, -1)` under `gcfg`). -/
theorem C7_degenerate_not_guarded :
    gridding gcfg [((0 : ℝ), 0, 5)] = [(1, -1)] := by
  have hd : distXY ((0 : ℝ), 0, 5) = 0 := by
    unfold distXY
    norm_num
  have hx : x_idx gcfg ((0 : ℝ), 0, 5) = 1 := by
    unfold x_idx thetaOf
    rw [hd]
    rw [astype16_eq_floor _ (by norm_num [Real.arcsin_zero, gcfg])
      (by norm_num [Real.arcsin_zero, gcfg])]
    norm_num [Real.arcsin_zero, gcfg]
  have hy : y_idx gcfg ((0 : ℝ), 0, 5) = -1 := by
    unfold y_idx astype16 truncInt
    rw [hd]
    rw [if_neg (by norm_num [gcfg])]
    norm_num [gcfg]
    rw [show (-1 : ℝ) = ((-1 : ℤ) : ℝ) by norm_num, Int.ceil_intCast]
    decide
  unfold gridding
  rw [List.map_cons, List.map_nil, hx, hy]

/-- C8: on a frame with zero valid points the pipeline is not a no-op:
`clustering` evaluates `x_idx.min()` and `grow_cluster` evaluates
`cid_arr.max()` on empty arrays, which raise `ValueError` in numpy
(modelled by `none`), for every configuration. -/
theorem C8_empty_frame_error (cfg : Config) :
    clustering cfg [] [] [] = none ∧ grow_cluster cfg [] [] [] [] = none := by
  constructor
  · rfl
  · rfl

theorem filter_length_mono (p q : α → Bool) :
    ∀ (l : List α), (∀ a, a ∈ l → p a = true → q a = true) →
      (l.filter p).length ≤ (l.filter q).length := by
  intro l
  induction l with
  | nil => intro _; exact le_refl _
  | cons a t ih =>
    intro hl
    have ht := ih (fun b hb => hl b (List.mem_cons_of_mem a hb))
    by_cases hp : p a = true
    · rw [List.filter_cons_of_pos hp, List.filter_cons_of_pos (hl a (List.mem_cons_self a t) hp)]
      simpa using ht
    · rw [List.filter_cons_of_neg (by simpa using hp)]
      by_cases hq : q a = true
      · rw [List.filter_cons_of_pos hq]
        simp only [List.length_cons]
        omega
      · rw [List.filter_cons_of_neg (by simpa using hq)]
        exact ht

theorem countMask_mono (n : ℕ) (p q : ℕ → Bool)
    (h : ∀ i, i < n → p i = true → q i = true) : countMask n p ≤ countMask n q :=
  filter_length_mono p q (List.range n) (fun a ha => h a (List.mem_range.mp ha))

theorem grdCandidate_mono (cfg cfg' : Config) (p : Pt) (d : ℚ)
    (hdz : cfg.dz_global ≤ cfg'.dz_global)
    (hdzl : cfg'.dz_local = cfg.dz_local)
    (hms : cfg'.max_slope = cfg.max_slope)
    (hlh : cfg'.lidar_height = cfg.lidar_height)
    (hc : grdCandidate cfg p d = true) : grdCandidate cfg' p d = true := by
  unfold grdCandidate clip at hc ⊢
  rw [decide_eq_true_eq] at hc
  rw [decide_eq_true_eq, hdzl, hms, hlh]
  refine lt_of_lt_of_le hc ?_
  exact min_le_min (le_refl _) hdz

/-- C9 counterexample: raising `dz_global` from 1 to 10 with every other
field fixed admits the outlier `(0, 5, -4.9)` as a ground candidate; the
least-squares plane fitted to the enlarged candidate set tilts and pushes
the two points at `y = 4` above `dz_local`, so the number of ground-flagged
points drops from 5 to 4. -/
theorem C9_counterexample :
    cfg9a.dz_global < cfg9b.dz_global ∧
    cfg9b = { cfg9a with dz_global := cfg9b.dz_global } ∧
    groundCount (ground_detection plane_fit cfg9b pos9 dist9 xi9 yi9).2 <
      groundCount (ground_detection plane_fit cfg9a pos9 dist9 xi9 yi9).2 :=
  ⟨of_decide_eq_true (by with_unfolding_all rfl), rfl,
    of_decide_eq_true (by with_unfolding_all rfl)⟩

/-- C9 (amended): with the other fields fixed, raising `dz_global` can only
enlarge the Phase A candidate set; and when the plane fitter returns the
same coefficients on both candidate sets, every point ground-flagged by
Phase A under the smaller `dz_global` is still flagged under the larger, so
the Phase A ground count cannot decrease. (The unamended claim fails
because the enlarged candidate set changes the fitted plane — see the
counterexample.) -/
theorem C9_amended (pf : List Pt → ℚ × ℚ × ℚ) (cfg cfg' : Config)
    (pos : List Pt) (dist : List ℚ)
    (hdz : cfg.dz_global ≤ cfg'.dz_global)
    (hdzl : cfg'.dz_local = cfg.dz_local)
    (hms : cfg'.max_slope = cfg.max_slope)
    (hlh : cfg'.lidar_height = cfg.lidar_height)
    (hpar : phaseApar pf cfg' pos dist = phaseApar pf cfg pos dist) :
    (∀ i, grdCandidate cfg (getP pos i) (getQ dist i) = true →
      grdCandidate cfg' (getP pos i) (getQ dist i) = true) ∧
    (∀ i, 0 < getF (phaseA pf cfg pos dist).2 i &&& IS_GROUND →
      0 < getF (phaseA pf cfg' pos dist).2 i &&& IS_GROUND) ∧
    groundCount (phaseA pf cfg pos dist).2 ≤ groundCount (phaseA pf cfg' pos dist).2 := by
  have hcand : ∀ i, grdCandidate cfg (getP pos i) (getQ dist i) = true →
      grdCandidate cfg' (getP pos i) (getQ dist i) = true :=
    fun i => grdCandidate_mono cfg cfg' (getP pos i) (getQ dist i) hdz hdzl hms hlh
  have hbit : ∀ i, 0 < getF (phaseA pf cfg pos dist).2 i &&& IS_GROUND →
      0 < getF (phaseA pf cfg' pos dist).2 i &&& IS_GROUND := by
    intro i hi
    rw [phaseA_flags] at hi
    rw [phaseA_flags]
    by_cases hcset : i < pos.length ∧
        (grdCandidate cfg (getP pos i) (getQ dist i) &&
          decide (getQ (heights pos (phaseApar pf cfg pos dist)) i < cfg.dz_local)) = true
    · rw [Bool.and_eq_true, decide_eq_true_eq] at hcset
      have hcset' : i < pos.length ∧
          (grdCandidate cfg' (getP pos i) (getQ dist i) &&
            decide (getQ (heights pos (phaseApar pf cfg' pos dist)) i < cfg'.dz_local)) = true := by
        refine ⟨hcset.1, ?_⟩
        rw [Bool.and_eq_true, decide_eq_true_eq, hpar, hdzl]
        exact ⟨hcand i hcset.2.1, hcset.2.2⟩
      rw [if_pos hcset']
      decide
    · rw [if_neg hcset] at hi
      exact absurd hi (by decide)
  refine ⟨hcand, hbit, ?_⟩
  have hlen : (phaseA pf cfg pos dist).2.length = (phaseA pf cfg' pos dist).2.length := by
    show (maskUpd _ _ _).length = (maskUpd _ _ _).length
    rw [maskUpd_length, maskUpd_length]
  unfold groundCount
  rw [← hlen]
  refine countMask_mono _ _ _ ?_
  intro i _ hp
  rw [decide_eq_true_eq] at hp
  rw [decide_eq_true_eq]
  exact hbit i hp

/-- Witness for C9 (amended): under `cfg9a` and `cfg9c` (`dz_global` 1 vs 2)
the candidate sets of `pos9` coincide, the fitted planes agree, and the
ground count does not decrease. -/
theorem C9_amended_witness :
    (∀ i, grdCandidate cfg9a (getP pos9 i) (getQ dist9 i) = true →
      grdCandidate cfg9c (getP pos9 i) (getQ dist9 i) = true) ∧
    (∀ i, 0 < getF (phaseA plane_fit cfg9a pos9 dist9).2 i &&& IS_GROUND →
      0 < getF (phaseA plane_fit cfg9c pos9 dist9).2 i &&& IS_GROUND) ∧
    groundCount (phaseA plane_fit cfg9a pos9 dist9).2 ≤
      groundCount (phaseA plane_fit cfg9c pos9 dist9).2 :=
  C9_amended plane_fit cfg9a cfg9c pos9 dist9
    (of_decide_eq_true (by with_unfolding_all rfl)) rfl rfl rfl
    (by with_unfolding_all rfl)

theorem growLayers_untouched (cfg : Config) (xi yi : List ℤ) (h : List ℚ)
    (cid : ℕ) :
    ∀ (layers : List ℚ) (grids : List (ℤ × ℤ)) (cids : List ℕ) (i : ℕ),
      (∀ h0, h0 ∈ layers → inLayerMask cfg h h0 i = false) →
      getF (growLayers cfg xi yi h cid layers grids cids) i = getF cids i := by
  intro layers
  induction layers with
  | nil => intro grids cids i _; rfl
  | cons h0 rest ih =>
    intro grids cids i hlow
    have hsel : layerSel cfg xi yi h grids h0 i = false := by
      unfold layerSel
      rw [hlow h0 (List.mem_cons_self h0 rest), Bool.and_false]
    have hupd : getF (maskUpd (layerSel cfg xi yi h grids h0) (fun _ _ => cid) cids) i =
        getF cids i := by
      unfold getF
      rw [getD_maskUpd, if_neg]
      rintro ⟨_, hc⟩
      rw [hsel] at hc
      exact Bool.false_ne_true hc
    simp only [growLayers]
    split
    · exact hupd
    · rw [ih _ _ i (fun h0' hm => hlow h0' (List.mem_cons_of_mem h0 hm))]
      exact hupd

theorem growOne_low (cfg : Config) (xi yi : List ℤ) (h : List ℚ)
    (cids : List ℕ) (cid : ℕ) (i : ℕ) (hlow : getQ h i < cfg.base_h_cut) :
    getF (growOne cfg xi yi h cids cid) i = getF cids i := by
  simp only [growOne]
  split
  · rfl
  · refine growLayers_untouched cfg xi yi h cid (layerList cfg) _ cids i ?_
    intro h0 hm
    have hm' : ∃ k, k < layerCount cfg ∧
        cfg.base_h_cut + (k : ℚ) * cfg.h_grid_size = h0 := by
      simpa [layerList, List.mem_map, List.mem_range] using hm
    obtain ⟨k, -, rfl⟩ := hm'
    rcases le_or_lt cfg.h_grid_size 0 with hs | hs
    · unfold inLayerMask
      by_cases h1 : cfg.base_h_cut + (k : ℚ) * cfg.h_grid_size ≤ getQ h i
      · have h2 : ¬ (getQ h i < cfg.base_h_cut + (k : ℚ) * cfg.h_grid_size + cfg.h_grid_size) := by
          have hks : (k : ℚ) * cfg.h_grid_size ≤ 0 :=
            mul_nonpos_of_nonneg_of_nonpos (by positivity) hs
          have hbh : cfg.base_h_cut + (k : ℚ) * cfg.h_grid_size + cfg.h_grid_size ≤
              cfg.base_h_cut + (k : ℚ) * cfg.h_grid_size := by linarith
          intro hcon
          have := lt_of_lt_of_le hcon hbh
          exact absurd h1 (not_le.mpr this)
        simp [h1, h2]
      · simp [h1]
    · have hks : 0 ≤ (k : ℚ) * cfg.h_grid_size :=
        mul_nonneg (by positivity) (le_of_lt hs)
      have h1 : ¬ (cfg.base_h_cut + (k : ℚ) * cfg.h_grid_size ≤ getQ h i) := by
        intro hcon
        linarith
      unfold inLayerMask
      simp [h1]

theorem grow_cluster_low (cfg : Config) (xi yi : List ℤ) (h : List ℚ)
    (cids : List ℕ) (r : List ℕ) (i : ℕ)
    (hr : grow_cluster cfg xi yi h cids = some r)
    (hlow : getQ h i < cfg.base_h_cut) : getF r i = getF cids i := by
  unfold grow_cluster at hr
  by_cases he : cids.isEmpty
  · rw [if_pos he] at hr
    exact absurd hr (by simp)
  · rw [if_neg he] at hr
    by_cases hz : cfg.h_grid_size = 0 ∧
        ((List.range (cids.foldl max 0)).map (fun k => k + 1)).any
          (fun cid => 1 ≤ countMask xi.length
            (fun i => connectMask cfg h i && (getF cids i == cid))) = true
    · rw [if_pos hz] at hr
      exact absurd hr (by simp)
    · rw [if_neg hz] at hr
      have hr' := Option.some.inj hr
      subst hr'
      refine foldl_inv _ (fun s : List ℕ => getF s i = getF cids i) ?_ _ _ rfl
      intro s cid hs
      rw [growOne_low cfg xi yi h s cid i hlow]
      exact hs

theorem builder_ids_preserved (cfg : Config) (h : List ℚ) (xi yi : List ℤ)
    (st : CState) (r : List ℕ) (i : ℕ)
    (hclu : clustering cfg h xi yi = some st)
    (hgrow : grow_cluster cfg xi yi h st.cid = some r)
    (hnz : getF st.cid i ≠ 0) : getF r i = getF st.cid i := by
  by_cases hb : i < xi.length ∧ hcutMask cfg h i = true
  · have hlow : getQ h i < cfg.base_h_cut := by
      have h2 := hb.2
      unfold hcutMask at h2
      rw [Bool.and_eq_true, decide_eq_true_eq, decide_eq_true_eq] at h2
      exact h2.1
    exact grow_cluster_low cfg xi yi h st.cid r i hgrow hlow
  · exact absurd (clustering_band cfg h xi yi st hclu i hb) hnz

/-- C10 counterexample: the claimed frame, configuration and point do not
exist. Ids assigned by the Cluster Builder live strictly below `base_h_cut`
(the clustering height band), while the Cluster Grower writes only to points
inside layers at or above `base_h_cut`, so a nonzero id assigned by the
builder is never changed by the grower. -/
theorem C10_counterexample :
    ¬ ∃ (cfg : Config) (h : List ℚ) (xi yi : List ℤ) (st : CState)
        (r : List ℕ) (i : ℕ),
      clustering cfg h xi yi = some st ∧
      grow_cluster cfg xi yi h st.cid = some r ∧
      getF st.cid i ≠ 0 ∧ getF r i ≠ getF st.cid i := by
  rintro ⟨cfg, h, xi, yi, st, r, i, hclu, hgrow, hnz, hne⟩
  exact hne (builder_ids_preserved cfg h xi yi st r i hclu hgrow hnz)

theorem resSq_nonneg (pts : List Pt) (par : ℚ × ℚ × ℚ) : 0 ≤ resSq pts par := by
  refine List.sum_nonneg ?_
  intro x hx
  obtain ⟨r, _, rfl⟩ := List.mem_map.mp hx
  exact mul_self_nonneg r

theorem plane_fit_minimizes_small (par : ℚ × ℚ × ℚ) :
    resSq (candPts cfg9a pos9 dist9) (plane_fit (candPts cfg9a pos9 dist9)) ≤
      resSq (candPts cfg9a pos9 dist9) par := by
  have h0 : resSq (candPts cfg9a pos9 dist9) (plane_fit (candPts cfg9a pos9 dist9)) = 0 := by
    with_unfolding_all rfl
  rw [h0]
  exact resSq_nonneg _ _

theorem plane_fit_minimizes_large (a b c : ℚ) :
    resSq (candPts cfg9b pos9 dist9) (plane_fit (candPts cfg9b pos9 dist9)) ≤
      resSq (candPts cfg9b pos9 dist9) (a, b, c) := by
  have hp : candPts cfg9b pos9 dist9 =
      [(0, 1, 0), (0, 2, 0), (3/5, 4/5, 0), (0, 4, 0), (0, 4, 0), (0, 5, -49/10)] := by
    with_unfolding_all rfl
  have h0 : resSq (candPts cfg9b pos9 dist9) (plane_fit (candPts cfg9b pos9 dist9)) =
      2401/200 := by
    with_unfolding_all rfl
  rw [h0, hp]
  have key : resSq
      [(0, 1, 0), (0, 2, 0), (3/5, 4/5, 0), (0, 4, 0), (0, 4, 0), (0, 5, -49/10)]
      (a, b, c) =
      2401/200 + ((-49/30 - a) * 0 + (-49/60 - b) * 1 + (49/30 - c)) ^ 2
        + ((-49/30 - a) * 0 + (-49/60 - b) * 2 + (49/30 - c)) ^ 2
        + ((-49/30 - a) * (3/5) + (-49/60 - b) * (4/5) + (49/30 - c)) ^ 2
        + ((-49/30 - a) * 0 + (-49/60 - b) * 4 + (49/30 - c)) ^ 2
        + ((-49/30 - a) * 0 + (-49/60 - b) * 4 + (49/30 - c)) ^ 2
        + ((-49/30 - a) * 0 + (-49/60 - b) * 5 + (49/30 - c)) ^ 2 := by
    simp only [resSq, heights, List.map_cons, List.map_nil, List.sum_cons, List.sum_nil]
    ring
  rw [key]
  have t1 := sq_nonneg ((-49/30 - a) * 0 + (-49/60 - b) * 1 + (49/30 - c))
  have t2 := sq_nonneg ((-49/30 - a) * 0 + (-49/60 - b) * 2 + (49/30 - c))
  have t3 := sq_nonneg ((-49/30 - a) * (3/5) + (-49/60 - b) * (4/5) + (49/30 - c))
  have t4 := sq_nonneg ((-49/30 - a) * 0 + (-49/60 - b) * 4 + (49/30 - c))
  have t5 := sq_nonneg ((-49/30 - a) * 0 + (-49/60 - b) * 5 + (49/30 - c))
  linarith

/-- C10 (amended): cluster membership established by the Cluster Builder IS
preserved by the Cluster Grower (growth writes only at heights at or above
`base_h_cut`); what is not preserved is membership created during growth
itself: in the concrete frame, point 2 has id 0 after clustering, is grown
into cluster 1 when id 1 grows, and ends with id 2 after the full
`grow_cluster` because the later cluster 2 grows past it. -/
theorem C10_amended :
    (∀ (cfg : Config) (h : List ℚ) (xi yi : List ℤ) (st : CState)
        (r : List ℕ) (i : ℕ),
      clustering cfg h xi yi = some st →
      grow_cluster cfg xi yi h st.cid = some r →
      getF st.cid i ≠ 0 → getF r i = getF st.cid i) ∧
    (∃ st : CState, clustering cfgX hX xiX yiX = some st ∧
      getF st.cid 2 = 0 ∧
      getF (growOne cfgX xiX yiX hX st.cid 1) 2 = 1 ∧
      grow_cluster cfgX xiX yiX hX st.cid = some [0, 1, 2, 2, 0, 0] ∧
      getF [0, 1, 2, 2, 0, 0] 2 = 2) := by
  constructor
  · exact builder_ids_preserved
  · refine ⟨⟨[0, 1, 0, 2, 0, 0], 3, [1, 2]⟩, ?_, ?_, ?_, ?_, ?_⟩
    · with_unfolding_all rfl
    · decide
    · exact of_decide_eq_true (by with_unfolding_all rfl)
    · with_unfolding_all rfl
    · decide

/-- Witness for C10 (amended): the builder id 1 of point 1 in the concrete
frame survives the full grower. -/
theorem C10_amended_witness :
    getF [0, 1, 2, 2, 0, 0] 1 = getF (⟨[0, 1, 0, 2, 0, 0], 3, [1, 2]⟩ : CState).cid 1 :=
  C10_amended.1 cfgX hX xiX yiX ⟨[0, 1, 0, 2, 0, 0], 3, [1, 2]⟩ [0, 1, 2, 2, 0, 0] 1
    (by with_unfolding_all rfl) (by with_unfolding_all rfl) (by decide)

end Frame
